import Mathlib

/-!
Verification of the OCR conversion pipeline of the pdf-transform repository.

The central function is `convertToNativeTextPDF`, implemented twice in the
source: a batched, worker-pool variant (the pooled design the spec treats as
the intended target) and an earlier sequential variant (whose per-line
invisible-text overlay loop is also modelled here, as `overlayLines`).

The embedding is a faithful translation of the TypeScript into pure Lean
functions: the asynchronous batch step (a `Promise.all` over the pages of a
batch) is modelled by mapping the per-page pipeline over the batch in page
order — `Promise.all` yields its results array indexed by input position
regardless of the temporal order in which the individual promises settle, so
the result list of a batch is a pure function of the batch, and completion
order is unobservable in the value. Failure points (render rejection,
recognition rejection, engine start-up failure, an `AbortSignal` observed at a
batch boundary) are modelled by explicit data on the inputs. JavaScript
number arithmetic on the progress values is modelled exactly over `ℚ`.
-/

/-- Width of one character in UTF-16 code units; JavaScript `String.length`
and regex replacement operate on UTF-16 units, so characters above U+FFFF
count twice. -/
def utf16Width (c : Char) : ℕ := if c.toNat < 0x10000 then 1 else 2

/-- JavaScript whitespace class (the regex `\s` and the characters removed by
`String.prototype.trim`): tab, LF, VT, FF, CR, space, NBSP, the Unicode
space separators, line/paragraph separators and the BOM. -/
def jsIsWs (c : Char) : Bool :=
  c.toNat = 9 || c.toNat = 10 || c.toNat = 11 || c.toNat = 12 || c.toNat = 13 ||
  c.toNat = 32 || c.toNat = 0xA0 || c.toNat = 0x1680 ||
  (0x2000 ≤ c.toNat && c.toNat ≤ 0x200A) ||
  c.toNat = 0x2028 || c.toNat = 0x2029 || c.toNat = 0x202F ||
  c.toNat = 0x205F || c.toNat = 0x3000 || c.toNat = 0xFEFF

/-- JavaScript `String.prototype.trim`: drop leading and trailing whitespace. -/
def jsTrim (s : String) : String :=
  String.mk ((((s.data.dropWhile jsIsWs).reverse).dropWhile jsIsWs).reverse)

/-- UTF-16 length of `existingText.replace(/\s/g, "")`: the quantity the
native-text threshold test compares against 20. -/
def nonWsUtf16Len (s : String) : ℕ :=
  ((s.data.filter (fun c => !jsIsWs c)).map utf16Width).sum

/-- Character class kept by the batched variant's sanitising replacement
`text.replace(/[^\x20-\x7E\xA0-\xFF\n]/g, "")`: printable ASCII, the upper
half of Latin-1, and the newline. -/
def keepChar002 (c : Char) : Bool :=
  (0x20 ≤ c.toNat && c.toNat ≤ 0x7E) || (0xA0 ≤ c.toNat && c.toNat ≤ 0xFF) ||
  c.toNat = 10

/-- The batched variant's `cleanText`: strip characters outside the kept
class, then trim. -/
def cleanText002 (s : String) : String :=
  jsTrim (String.mk (s.data.filter keepChar002))

/-- Character class kept by the sequential variant's per-line replacement
`line.replace(/[^\x20-\x7E\xA0-\xFF]/g, "")` (no newline: lines are split on
newlines first). -/
def keepChar003 (c : Char) : Bool :=
  (0x20 ≤ c.toNat && c.toNat ≤ 0x7E) || (0xA0 ≤ c.toNat && c.toNat ≤ 0xFF)

/-- The sequential variant's `cleanLine`. -/
def cleanLine003 (s : String) : String :=
  jsTrim (String.mk (s.data.filter keepChar003))

/-- Model of one source page as the conversion observes it: the text runs of
its extracted text content (`textContent.items[].str`), whether rasterising
it to a canvas succeeds, and the outcome a recognition job on its bitmap
would have (`some text`, or `none` for a `RecognitionFailure`), plus the base
viewport dimensions at scale 1. -/
structure SrcPage where
  textItems : List String
  renderOk  : Bool
  ocr       : Option String
  width     : ℚ
  height    : ℚ
deriving Repr, DecidableEq

instance : Inhabited SrcPage := ⟨⟨[], false, none, 0, 0⟩⟩

/-- The distinct failure exits of `convertToNativeTextPDF`, one constructor
per throw site of the batched variant. -/
inductive ConvError where
  | pdfjsUnavailable
  | engineUnavailable
  | renderFailure
  | recognitionFailure
  | cancelled
deriving Repr, DecidableEq

/-- The message string of the `Error` thrown at each failure exit (for
`engineUnavailable` the fixed text preceding the interpolated inner
message). -/
def ConvError.message : ConvError → String
  | .pdfjsUnavailable => "PDF.js não disponível."
  | .engineUnavailable => "Falha ao iniciar OCR: "
  | .renderFailure => "Canvas context falhou"
  | .recognitionFailure => "RecognitionFailure"
  | .cancelled => "Conversão cancelada"

/-- One committed page of the output document: the page box (the 1.5-scale
viewport dimensions), and the invisible text overlay drawn on it, if any. -/
structure PageOut where
  w       : ℚ
  h       : ℚ
  overlay : Option String
deriving Repr, DecidableEq

instance : Inhabited PageOut := ⟨⟨0, 0, none⟩⟩

/-- The page's concatenated extracted text:
`tc.items.map((it) => it.str).join(" ").trim()`. -/
def existingTextOf (p : SrcPage) : String :=
  jsTrim (String.intercalate " " p.textItems)

/-- The native-text test:
`existingText.replace(/\s/g, "").length > 20`. -/
def hasNativeText (p : SrcPage) : Bool :=
  20 < nonWsUtf16Len (existingTextOf p)

/-- Resolve the text for one page, per the batched variant's per-page async
step: rasterise (failing with a render error if the canvas render rejects),
then take the extracted text when the native-text test passes, otherwise
submit the bitmap to the scheduler and take the recognition result, failing
if the job rejects. -/
def resolveText (p : SrcPage) : Except ConvError String :=
  if !p.renderOk then .error .renderFailure
  else if hasNativeText p then .ok (existingTextOf p)
  else
    match p.ocr with
    | some t => .ok t
    | none => .error .recognitionFailure

/-- Whether the page's per-page step submits a recognition job to the worker
pool: it rendered, and the native-text test failed. (A job that is submitted
and then rejects still counts as submitted.) -/
def ocrSubmitted (p : SrcPage) : Bool :=
  p.renderOk && !hasNativeText p

/-- The commit step for one resolved page: add a page sized to the viewport,
embed the page image, and, when the resolved text is non-empty after a trim,
draw the sanitised text (if anything survives sanitising) as a near-zero
opacity overlay. -/
def commitPage (p : SrcPage) (text : String) : PageOut :=
  { w := 3 / 2 * p.width
    h := 3 / 2 * p.height
    overlay :=
      if jsTrim text ≠ "" then
        (if cleanText002 text ≠ "" then some (cleanText002 text) else none)
      else none }

/-- The whole per-page pipeline: resolve the text, then commit. -/
def pageResult (p : SrcPage) : Except ConvError PageOut :=
  (resolveText p).map (commitPage p)

/-- Look a 1-based page number up in the document. -/
def getPage (pages : List SrcPage) (n : ℕ) : SrcPage :=
  ((pages.get? (n - 1)).getD default)

/-- Split a list into consecutive chunks of size `B` (the last chunk may be
shorter), by fuel so that the definition is structural. With fuel at least
the list's length this is the batch partition `i, i+B, ...` of the source's
batch loop. -/
def chunkGo (B : ℕ) : ℕ → List α → List (List α)
  | 0, _ => []
  | _, [] => []
  | fuel + 1, x :: xs => (x :: xs.take (B - 1)) :: chunkGo B fuel (xs.drop (B - 1))

/-- The batch partition of a list into chunks of size `B`. -/
def chunk (B : ℕ) (l : List α) : List (List α) := chunkGo B l.length l

/-- Model of `Promise.all` over the per-page results of a batch: all pages
run, and the batch resolves to the list of page values in page order, or
rejects with a failure if any page failed (the surfaced rejection is taken
from the first failing position). -/
def collectOk : List (Except ConvError PageOut) → Except ConvError (List PageOut)
  | [] => .ok []
  | .error e :: _ => .error e
  | .ok v :: rest => (collectOk rest).map (v :: ·)

/-- The status message reported when a batch starts processing. -/
def batchMsg (b : List ℕ) (P : ℕ) : String :=
  let a := b.headI
  let z := b.getLastD 0
  s!"OCR Paralelo: processando páginas {a}-{z} de {P}..."

/-- The progress value reported when a batch starts processing:
`10 + (i / pdf.numPages) * 85` with `i` the batch's first page number. -/
def batchProgress (b : List ℕ) (P : ℕ) : ℚ :=
  10 + ((b.headI : ℚ) / (P : ℚ)) * 85

instance {ε α : Type} [DecidableEq ε] [DecidableEq α] : DecidableEq (Except ε α) := fun x y =>
  match x, y with
  | .ok a, .ok b =>
      if h : a = b then .isTrue (by rw [h]) else .isFalse (by simp [h])
  | .error a, .error b =>
      if h : a = b then .isTrue (by rw [h]) else .isFalse (by simp [h])
  | .ok _, .error _ => .isFalse (by simp)
  | .error _, .ok _ => .isFalse (by simp)

/-- Trace of the batch loop: progress reports made, page numbers rasterised,
page numbers submitted for recognition, and the loop's outcome (the committed
pages in order, or the failure that aborted it). -/
structure BatchTrace where
  progress : List (ℚ × String)
  raster   : List ℕ
  ocr      : List ℕ
  outcome  : Except ConvError (List PageOut)
deriving Repr, DecidableEq

/-- The batch loop of the batched variant, over the precomputed batch
partition. At each batch boundary the abort signal is polled (indexed by the
batch's position); if requested the loop throws the cancellation error.
Otherwise the batch's progress is reported, every page of the batch runs the
per-page pipeline (so every page of the batch is rasterised, and exactly the
pages failing the native-text test are submitted to the pool), and on success
the batch's pages are committed in page order before the next batch starts. -/
def runBatches (pages : List SrcPage) (P : ℕ) (aborted : ℕ → Bool) :
    ℕ → List (List ℕ) → BatchTrace
  | _, [] => { progress := [], raster := [], ocr := [], outcome := .ok [] }
  | bIdx, b :: bs =>
    if aborted bIdx then
      { progress := [], raster := [], ocr := [], outcome := .error .cancelled }
    else
      let entry : ℚ × String := (batchProgress b P, batchMsg b P)
      let ocrs := b.filter (fun n => ocrSubmitted (getPage pages n))
      match collectOk (b.map (fun n => pageResult (getPage pages n))) with
      | .error e =>
        { progress := [entry], raster := b, ocr := ocrs, outcome := .error e }
      | .ok outs =>
        let rest := runBatches pages P aborted (bIdx + 1) bs
        { progress := entry :: rest.progress
          raster := b ++ rest.raster
          ocr := ocrs ++ rest.ocr
          outcome := rest.outcome.map (outs ++ ·) }

/-- Trace of a whole conversion run: progress reports, rasterised pages,
recognition submissions, how many times the scheduler was terminated, whether
the keep-alive guard was stopped, and the outcome. -/
structure ConvTrace where
  progress         : List (ℚ × String)
  raster           : List ℕ
  ocr              : List ℕ
  terminateCalls   : ℕ
  keepAliveStopped : Bool
  outcome          : Except ConvError (List PageOut)
deriving Repr, DecidableEq

/-- The worker count `Math.min(navigator.hardwareConcurrency || 2, 3)`,
parameterised by the reported hardware concurrency (0 standing for a falsy
value). -/
def numWorkersOf (hw : ℕ) : ℕ := min (if hw = 0 then 2 else hw) 3

/-- Faithful model of the batched `convertToNativeTextPDF`. Parameters: the
source document's pages; the hardware concurrency; whether the PDF.js module
is available (checked before anything runs); whether the OCR workers start;
and the abort signal's state as polled at each batch boundary. Note that
`scheduler.terminate()` sits after the batch loop inside the `try` block —
only the keep-alive stop is in the `finally` — so on the model, exactly as in
the source, the terminate count is 1 on the success path and 0 on every
failure or cancellation path. -/
def convertToNativeTextPDF (pages : List SrcPage) (hw : ℕ)
    (pdfjsOk workersOk : Bool) (aborted : ℕ → Bool) : ConvTrace :=
  if !pdfjsOk then
    { progress := [], raster := [], ocr := [], terminateCalls := 0
      keepAliveStopped := false, outcome := .error .pdfjsUnavailable }
  else
    let P := pages.length
    let pre : List (ℚ × String) :=
      [(2, "Carregando arquivo PDF..."), (5, "Inicializando motor OCR paralelo...")]
    if !workersOk then
      { progress := pre, raster := [], ocr := [], terminateCalls := 0
        keepAliveStopped := true, outcome := .error .engineUnavailable }
    else
      let B := numWorkersOf hw
      let bt := runBatches pages P aborted 0 (chunk B (List.range' 1 P))
      match bt.outcome with
      | .error e =>
        { progress := pre ++ [(8, "Preparando novo documento...")] ++ bt.progress
          raster := bt.raster, ocr := bt.ocr, terminateCalls := 0
          keepAliveStopped := true, outcome := .error e }
      | .ok outs =>
        { progress := pre ++ [(8, "Preparando novo documento...")] ++ bt.progress
            ++ [(97, "Finalizando documento PDF..."),
                (100, "Conversão concluída com sucesso!")]
          raster := bt.raster, ocr := bt.ocr, terminateCalls := 1
          keepAliveStopped := true, outcome := .ok outs }

/-- The sequential variant's invisible-text overlay loop over one page's
resolved text: walk the non-blank lines from `y = pageH - 15` downward in
steps of `fontSize * 1.3` with `fontSize = 8`, stop as soon as `y < 10`, and
draw each sanitised line that is non-empty; returns the drawn lines with
their vertical positions. -/
def overlayGo : List String → ℚ → List (String × ℚ)
  | [], _ => []
  | l :: ls, y =>
    if y < 10 then []
    else
      (if cleanLine003 l ≠ "" then [(cleanLine003 l, y)] else [])
        ++ overlayGo ls (y - 8 * (13 / 10))

/-- The sequential variant's overlay for one page: it runs only when the
resolved text is non-blank, over the text's non-blank lines. -/
def overlayLines (finalText : String) (pageH : ℚ) : List (String × ℚ) :=
  if jsTrim finalText ≠ "" then
    overlayGo ((finalText.splitOn "\n").filter (fun l => jsTrim l ≠ "")) (pageH - 15)
  else []

/-- Modelled from the spec: the overlay as the spec words it — every line
whose vertical position falls below the bottom margin is dropped (each line
individually, rather than by stopping the walk), all other non-empty
sanitised lines are drawn at their positions. Stated for comparison with
`overlayGo`. -/
def overlayGoSpec : List String → ℚ → List (String × ℚ)
  | [], _ => []
  | l :: ls, y =>
    (if y < 10 then []
     else if cleanLine003 l ≠ "" then [(cleanLine003 l, y)] else [])
      ++ overlayGoSpec ls (y - 8 * (13 / 10))

/-- Modelled from the spec: the whole-page overlay built from
`overlayGoSpec`. -/
def overlayLinesSpec (finalText : String) (pageH : ℚ) : List (String × ℚ) :=
  if jsTrim finalText ≠ "" then
    overlayGoSpec ((finalText.splitOn "\n").filter (fun l => jsTrim l ≠ "")) (pageH - 15)
  else []

/-! ### Basic facts about the batch partition -/

theorem chunkGo_congr {α : Type} (B f₁ f₂ : ℕ) (l : List α) (h₁ : l.length ≤ f₁)
    (h₂ : l.length ≤ f₂) : chunkGo B f₁ l = chunkGo B f₂ l := by
  induction f₁ generalizing f₂ l with
  | zero =>
    have hl : l = [] := List.eq_nil_of_length_eq_zero (Nat.le_zero.mp h₁)
    subst hl; cases f₂ <;> rfl
  | succ f₁ ih =>
    cases l with
    | nil => cases f₂ <;> rfl
    | cons x xs =>
      cases f₂ with
      | zero => simp at h₂
      | succ f₂ =>
        simp only [chunkGo, List.cons.injEq, true_and]
        apply ih
        · simp only [List.length_drop]
          simp only [List.length_cons] at h₁
          omega
        · simp only [List.length_drop]
          simp only [List.length_cons] at h₂
          omega

theorem chunk_nil {α : Type} (B : ℕ) : chunk B ([] : List α) = [] := rfl

theorem chunk_cons {α : Type} (B : ℕ) (x : α) (xs : List α) :
    chunk B (x :: xs) = (x :: xs.take (B - 1)) :: chunk B (xs.drop (B - 1)) := by
  show chunkGo B (xs.length + 1) (x :: xs) = _
  simp only [chunkGo, List.cons.injEq, true_and]
  exact chunkGo_congr B xs.length (xs.drop (B - 1)).length _
    (by simp only [List.length_drop]; omega) le_rfl

theorem chunkGo_flatten {α : Type} (B f : ℕ) (l : List α) (h : l.length ≤ f) :
    (chunkGo B f l).flatten = l := by
  induction f generalizing l with
  | zero =>
    have hl : l = [] := List.eq_nil_of_length_eq_zero (Nat.le_zero.mp h)
    subst hl; rfl
  | succ f ih =>
    cases l with
    | nil => rfl
    | cons x xs =>
      simp only [chunkGo, List.flatten_cons]
      rw [ih _ (by simp only [List.length_drop]; simp only [List.length_cons] at h; omega)]
      simp [List.take_append_drop]

theorem chunk_flatten {α : Type} (B : ℕ) (l : List α) : (chunk B l).flatten = l :=
  chunkGo_flatten B l.length l le_rfl

theorem chunkGo_ne_nil {α : Type} (B f : ℕ) (l : List α) (c : List α)
    (hc : c ∈ chunkGo B f l) : c ≠ [] := by
  induction f generalizing l with
  | zero => simp [chunkGo] at hc
  | succ f ih =>
    cases l with
    | nil => simp [chunkGo] at hc
    | cons x xs =>
      simp only [chunkGo, List.mem_cons] at hc
      rcases hc with h | h
      · subst h; simp
      · exact ih _ h

theorem chunk_ne_nil {α : Type} (B : ℕ) (l : List α) (c : List α)
    (hc : c ∈ chunk B l) : c ≠ [] :=
  chunkGo_ne_nil B l.length l c hc

theorem chunkGo_heads_sublist {α : Type} [Inhabited α] (B f : ℕ) (l : List α)
    (h : l.length ≤ f) : List.Sublist ((chunkGo B f l).map List.headI) l := by
  induction f generalizing l with
  | zero =>
    have hl : l = [] := List.eq_nil_of_length_eq_zero (Nat.le_zero.mp h)
    subst hl; simp [chunkGo]
  | succ f ih =>
    cases l with
    | nil => simp [chunkGo]
    | cons x xs =>
      simp only [chunkGo, List.map_cons, List.headI]
      refine List.Sublist.cons₂ x ?_
      refine List.Sublist.trans ?_ (List.drop_sublist (B - 1) xs)
      exact ih _ (by simp only [List.length_drop]; simp only [List.length_cons] at h; omega)

theorem chunk_heads_sublist {α : Type} [Inhabited α] (B : ℕ) (l : List α) :
    List.Sublist ((chunk B l).map List.headI) l :=
  chunkGo_heads_sublist B l.length l le_rfl

theorem chunk_headI_mem {α : Type} [Inhabited α] (B : ℕ) (l : List α) (c : List α)
    (hc : c ∈ chunk B l) : c.headI ∈ l := by
  have h1 : c.headI ∈ (chunk B l).map List.headI := List.mem_map_of_mem _ hc
  exact (chunk_heads_sublist B l).subset h1

/-! ### Facts about the batch resolution and page lookup -/

theorem collectOk_eq_ok (xs : List (Except ConvError PageOut)) (ys : List PageOut)
    (h : collectOk xs = .ok ys) : xs = ys.map Except.ok := by
  induction xs generalizing ys with
  | nil =>
    simp only [collectOk, Except.ok.injEq] at h
    subst h; rfl
  | cons x xs ih =>
    cases x with
    | error e => simp [collectOk] at h
    | ok v =>
      simp only [collectOk] at h
      cases hrest : collectOk xs with
      | error e => rw [hrest] at h; simp [Except.map] at h
      | ok ys' =>
        rw [hrest] at h
        simp only [Except.map, Except.ok.injEq] at h
        subst h
        simp [ih ys' hrest]

theorem collectOk_of_all_ok (xs : List (Except ConvError PageOut))
    (h : ∀ x ∈ xs, x.isOk = true) : ∃ ys, collectOk xs = .ok ys := by
  induction xs with
  | nil => exact ⟨[], rfl⟩
  | cons x xs ih =>
    cases x with
    | error e => have := h _ (List.mem_cons_self _ _); simp [Except.isOk, Except.toBool] at this
    | ok v =>
      obtain ⟨ys, hys⟩ := ih (fun x hx => h x (List.mem_cons_of_mem _ hx))
      exact ⟨v :: ys, by simp [collectOk, hys, Except.map]⟩

theorem jsTrim_ne_empty_of_nonWs (s : String) (h : 0 < nonWsUtf16Len s) :
    jsTrim s ≠ "" := by
  intro he
  have hlist : (((s.data.dropWhile jsIsWs).reverse).dropWhile jsIsWs).reverse = [] := by
    have : (jsTrim s).data = ([] : List Char) := by rw [he]
    simpa [jsTrim] using this
  have h₂ : ((s.data.dropWhile jsIsWs).reverse).dropWhile jsIsWs = [] := by
    simpa using congrArg List.reverse hlist
  have hdropws : ∀ c ∈ s.data.dropWhile jsIsWs, jsIsWs c = true := by
    intro c hc
    exact List.dropWhile_eq_nil_iff.mp h₂ c (List.mem_reverse.mpr hc)
  have hallws : ∀ c ∈ s.data, jsIsWs c = true := by
    intro c hc
    rw [← List.takeWhile_append_dropWhile (p := jsIsWs) (l := s.data)] at hc
    rcases List.mem_append.mp hc with h1 | h1
    · exact List.mem_takeWhile_imp h1
    · exact hdropws c h1
  have hfil : s.data.filter (fun c => !jsIsWs c) = [] := by
    rw [List.filter_eq_nil_iff]
    intro c hc
    simp [hallws c hc]
  rw [nonWsUtf16Len, hfil] at h
  simp at h

theorem map_getPage_range' (pages : List SrcPage) :
    (List.range' 1 pages.length).map (fun n => getPage pages n) = pages := by
  induction pages with
  | nil => rfl
  | cons p ps ih =>
    rw [List.length_cons, List.range'_succ, List.map_cons]
    have h1 : getPage (p :: ps) 1 = p := rfl
    rw [h1]
    have h2 : List.range' (1 + 1) ps.length = (List.range' 1 ps.length).map (fun n => 1 + n) := by
      rw [← List.map_add_range' 1 1 ps.length]
    rw [h2, List.map_map]
    have htail : (List.range' 1 ps.length).map ((fun n => getPage (p :: ps) n) ∘ fun n => 1 + n)
        = (List.range' 1 ps.length).map (fun n => getPage ps n) := by
      apply List.map_congr_left
      intro n hn
      have h3 : 1 ≤ n := (List.mem_range'_1.mp hn).1
      show getPage (p :: ps) (1 + n) = getPage ps n
      unfold getPage
      have h4 : 1 + n - 1 = (n - 1) + 1 := by omega
      rw [h4, List.get?_cons_succ]
    rw [htail, ih]

theorem getPage_mem (pages : List SrcPage) (n : ℕ)
    (h : n ∈ List.range' 1 pages.length) : getPage pages n ∈ pages := by
  rw [List.mem_range'_1] at h
  unfold getPage
  have hlt : n - 1 < pages.length := by omega
  rw [List.get?_eq_get hlt]
  simpa using List.get_mem pages _ hlt

/-! ### The batch loop -/

theorem runBatches_nil (pages : List SrcPage) (P : ℕ) (ab : ℕ → Bool) (bIdx : ℕ) :
    runBatches pages P ab bIdx [] =
      { progress := [], raster := [], ocr := [], outcome := .ok [] } := rfl

theorem runBatches_cons (pages : List SrcPage) (P : ℕ) (ab : ℕ → Bool) (bIdx : ℕ)
    (b : List ℕ) (bs : List (List ℕ)) :
    runBatches pages P ab bIdx (b :: bs) =
      if ab bIdx then
        { progress := [], raster := [], ocr := [], outcome := .error .cancelled }
      else
        match collectOk (b.map (fun n => pageResult (getPage pages n))) with
        | .error e =>
          { progress := [(batchProgress b P, batchMsg b P)], raster := b,
            ocr := b.filter (fun n => ocrSubmitted (getPage pages n)), outcome := .error e }
        | .ok outs =>
          let rest := runBatches pages P ab (bIdx + 1) bs
          { progress := (batchProgress b P, batchMsg b P) :: rest.progress
            raster := b ++ rest.raster
            ocr := b.filter (fun n => ocrSubmitted (getPage pages n)) ++ rest.ocr
            outcome := rest.outcome.map (outs ++ ·) } := rfl

theorem runBatches_ok (pages : List SrcPage) (P : ℕ) (ab : ℕ → Bool) :
    ∀ (bs : List (List ℕ)) (bIdx : ℕ) (outs : List PageOut),
      (runBatches pages P ab bIdx bs).outcome = .ok outs →
      bs.flatten.map (fun n => pageResult (getPage pages n)) = outs.map Except.ok := by
  intro bs
  induction bs with
  | nil =>
    intro bIdx outs h
    rw [runBatches_nil] at h
    simp only [Except.ok.injEq] at h
    subst h; rfl
  | cons b bs ih =>
    intro bIdx outs h
    rw [runBatches_cons] at h
    by_cases ha : ab bIdx
    · rw [if_pos ha] at h; simp at h
    · rw [if_neg ha] at h
      cases hc : collectOk (b.map fun n => pageResult (getPage pages n)) with
      | error e => rw [hc] at h; simp at h
      | ok vs =>
        rw [hc] at h
        simp only at h
        cases hrest : (runBatches pages P ab (bIdx + 1) bs).outcome with
        | error e => rw [hrest] at h; simp [Except.map] at h
        | ok outs' =>
          rw [hrest] at h
          simp only [Except.map, Except.ok.injEq] at h
          subst h
          rw [List.flatten_cons, List.map_append, collectOk_eq_ok _ _ hc,
            ih _ _ hrest, List.map_append]

theorem runBatches_ok_progress (pages : List SrcPage) (P : ℕ) (ab : ℕ → Bool) :
    ∀ (bs : List (List ℕ)) (bIdx : ℕ) (outs : List PageOut),
      (runBatches pages P ab bIdx bs).outcome = .ok outs →
      (runBatches pages P ab bIdx bs).progress
        = bs.map (fun b => (batchProgress b P, batchMsg b P)) := by
  intro bs
  induction bs with
  | nil => intro bIdx outs h; rfl
  | cons b bs ih =>
    intro bIdx outs h
    rw [runBatches_cons] at h ⊢
    by_cases ha : ab bIdx
    · rw [if_pos ha] at h; simp at h
    · rw [if_neg ha] at h ⊢
      cases hc : collectOk (b.map fun n => pageResult (getPage pages n)) with
      | error e => rw [hc] at h; simp at h
      | ok vs =>
        rw [hc] at h
        dsimp only at h ⊢
        cases hrest : (runBatches pages P ab (bIdx + 1) bs).outcome with
        | error e => rw [hrest] at h; simp [Except.map] at h
        | ok outs' =>
          rw [List.map_cons, List.cons.injEq]
          exact ⟨rfl, ih _ _ hrest⟩

theorem runBatches_progress_take (pages : List SrcPage) (P : ℕ) (ab : ℕ → Bool) :
    ∀ (bs : List (List ℕ)) (bIdx : ℕ), ∃ k,
      (runBatches pages P ab bIdx bs).progress
        = (bs.take k).map (fun b => (batchProgress b P, batchMsg b P)) := by
  intro bs
  induction bs with
  | nil => intro bIdx; exact ⟨0, rfl⟩
  | cons b bs ih =>
    intro bIdx
    rw [runBatches_cons]
    by_cases ha : ab bIdx
    · rw [if_pos ha]; exact ⟨0, rfl⟩
    · rw [if_neg ha]
      cases hc : collectOk (b.map fun n => pageResult (getPage pages n)) with
      | error e => exact ⟨1, rfl⟩
      | ok vs =>
        obtain ⟨k, hk⟩ := ih (bIdx + 1)
        refine ⟨k + 1, ?_⟩
        dsimp only
        rw [List.take_succ_cons, List.map_cons, List.cons.injEq]
        exact ⟨rfl, hk⟩

theorem runBatches_ocr_submitted (pages : List SrcPage) (P : ℕ) (ab : ℕ → Bool) :
    ∀ (bs : List (List ℕ)) (bIdx : ℕ) (n : ℕ),
      n ∈ (runBatches pages P ab bIdx bs).ocr → ocrSubmitted (getPage pages n) = true := by
  intro bs
  induction bs with
  | nil => intro bIdx n h; simp [runBatches_nil] at h
  | cons b bs ih =>
    intro bIdx n h
    rw [runBatches_cons] at h
    by_cases ha : ab bIdx
    · rw [if_pos ha] at h; simp at h
    · rw [if_neg ha] at h
      cases hc : collectOk (b.map fun n => pageResult (getPage pages n)) with
      | error e =>
        rw [hc] at h
        simp only at h
        exact (List.mem_filter.mp h).2
      | ok vs =>
        rw [hc] at h
        simp only at h
        rcases List.mem_append.mp h with h1 | h1
        · exact (List.mem_filter.mp h1).2
        · exact ih _ _ h1

theorem runBatches_cancel (pages : List SrcPage) (P : ℕ) (ab : ℕ → Bool) :
    ∀ (i : ℕ) (bs : List (List ℕ)) (bIdx : ℕ),
      (∀ j, j < i → ab (bIdx + j) = false) → ab (bIdx + i) = true →
      i < bs.length →
      (∀ n ∈ (bs.take i).flatten, (pageResult (getPage pages n)).isOk = true) →
      runBatches pages P ab bIdx bs =
        { progress := (bs.take i).map (fun b => (batchProgress b P, batchMsg b P))
          raster := (bs.take i).flatten
          ocr := ((bs.take i).flatten).filter (fun n => ocrSubmitted (getPage pages n))
          outcome := .error .cancelled } := by
  intro i
  induction i with
  | zero =>
    intro bs bIdx h0 hi hlen hok
    cases bs with
    | nil => simp at hlen
    | cons b bs =>
      have hab : ab bIdx = true := by simpa using hi
      rw [runBatches_cons, if_pos hab]
      rfl
  | succ i ih =>
    intro bs bIdx h0 hi hlen hok
    cases bs with
    | nil => simp at hlen
    | cons b bs =>
      have hab0 : ab bIdx = false := by simpa using h0 0 (Nat.succ_pos i)
      have hbmem : ∀ n ∈ b, n ∈ ((b :: bs).take (i + 1)).flatten := by
        intro n hn
        rw [List.take_succ_cons, List.flatten_cons]
        exact List.mem_append.mpr (Or.inl hn)
      have hball : ∀ x ∈ b.map (fun n => pageResult (getPage pages n)), x.isOk = true := by
        intro x hx
        rcases List.mem_map.mp hx with ⟨n, hn, rfl⟩
        exact hok n (hbmem n hn)
      obtain ⟨vs, hvs⟩ := collectOk_of_all_ok _ hball
      have hrest : runBatches pages P ab (bIdx + 1) bs =
          { progress := (bs.take i).map (fun b => (batchProgress b P, batchMsg b P))
            raster := (bs.take i).flatten
            ocr := ((bs.take i).flatten).filter (fun n => ocrSubmitted (getPage pages n))
            outcome := .error .cancelled } := by
        apply ih
        · intro j hj
          have h5 : bIdx + 1 + j = bIdx + (j + 1) := by omega
          rw [h5]
          exact h0 (j + 1) (by omega)
        · have h5 : bIdx + 1 + i = bIdx + (i + 1) := by omega
          rw [h5]; exact hi
        · simpa using Nat.lt_of_succ_lt_succ (by simpa using hlen)
        · intro n hn
          apply hok n
          rw [List.take_succ_cons, List.flatten_cons]
          exact List.mem_append.mpr (Or.inr hn)
      rw [runBatches_cons, if_neg (by simp [hab0]), hvs]
      dsimp only
      rw [hrest]
      rw [List.take_succ_cons, List.map_cons, List.flatten_cons, List.filter_append]
      rfl

/-! ### The conversion wrapper -/

/-- The batch-loop trace of a conversion run (batch size and partition as the
conversion computes them). -/
def convBT (pages : List SrcPage) (hw : ℕ) (ab : ℕ → Bool) : BatchTrace :=
  runBatches pages pages.length ab 0
    (chunk (numWorkersOf hw) (List.range' 1 pages.length))

theorem convert_ok_shape (pages : List SrcPage) (hw : ℕ) (pok wok : Bool)
    (ab : ℕ → Bool) (outs : List PageOut)
    (h : (convertToNativeTextPDF pages hw pok wok ab).outcome = .ok outs) :
    pok = true ∧ wok = true ∧ (convBT pages hw ab).outcome = .ok outs := by
  cases pok with
  | false => simp [convertToNativeTextPDF] at h
  | true =>
    cases wok with
    | false => simp [convertToNativeTextPDF] at h
    | true =>
      refine ⟨rfl, rfl, ?_⟩
      simp only [convertToNativeTextPDF] at h
      cases hbt : (convBT pages hw ab).outcome with
      | error e =>
        rw [show runBatches pages pages.length ab 0
              (chunk (numWorkersOf hw) (List.range' 1 pages.length))
            = convBT pages hw ab from rfl, hbt] at h
        simp at h
      | ok outs' =>
        rw [show runBatches pages pages.length ab 0
              (chunk (numWorkersOf hw) (List.range' 1 pages.length))
            = convBT pages hw ab from rfl, hbt] at h
        simpa using h

theorem convert_ok_rec (pages : List SrcPage) (hw : ℕ) (ab : ℕ → Bool)
    (outs : List PageOut) (hbt : (convBT pages hw ab).outcome = .ok outs) :
    convertToNativeTextPDF pages hw true true ab =
      { progress := [(2, "Carregando arquivo PDF..."),
          (5, "Inicializando motor OCR paralelo..."),
          (8, "Preparando novo documento...")] ++ (convBT pages hw ab).progress
          ++ [(97, "Finalizando documento PDF..."),
              (100, "Conversão concluída com sucesso!")]
        raster := (convBT pages hw ab).raster
        ocr := (convBT pages hw ab).ocr
        terminateCalls := 1
        keepAliveStopped := true
        outcome := .ok outs } := by
  simp only [convertToNativeTextPDF]
  rw [show runBatches pages pages.length ab 0
        (chunk (numWorkersOf hw) (List.range' 1 pages.length))
      = convBT pages hw ab from rfl, hbt]
  rfl

theorem convert_error_rec (pages : List SrcPage) (hw : ℕ) (ab : ℕ → Bool)
    (e : ConvError) (hbt : (convBT pages hw ab).outcome = .error e) :
    convertToNativeTextPDF pages hw true true ab =
      { progress := [(2, "Carregando arquivo PDF..."),
          (5, "Inicializando motor OCR paralelo..."),
          (8, "Preparando novo documento...")] ++ (convBT pages hw ab).progress
        raster := (convBT pages hw ab).raster
        ocr := (convBT pages hw ab).ocr
        terminateCalls := 0
        keepAliveStopped := true
        outcome := .error e } := by
  simp only [convertToNativeTextPDF]
  rw [show runBatches pages pages.length ab 0
        (chunk (numWorkersOf hw) (List.range' 1 pages.length))
      = convBT pages hw ab from rfl, hbt]
  rfl

theorem convert_ocr_cases (pages : List SrcPage) (hw : ℕ) (pok wok : Bool)
    (ab : ℕ → Bool) :
    (convertToNativeTextPDF pages hw pok wok ab).ocr = [] ∨
    (convertToNativeTextPDF pages hw pok wok ab).ocr = (convBT pages hw ab).ocr := by
  cases pok with
  | false => exact Or.inl rfl
  | true =>
    cases wok with
    | false => exact Or.inl rfl
    | true =>
      right
      simp only [convertToNativeTextPDF]
      cases hbt : (convBT pages hw ab).outcome with
      | error e =>
        rw [show runBatches pages pages.length ab 0
              (chunk (numWorkersOf hw) (List.range' 1 pages.length))
            = convBT pages hw ab from rfl, hbt]
        rfl
      | ok outs =>
        rw [show runBatches pages pages.length ab 0
              (chunk (numWorkersOf hw) (List.range' 1 pages.length))
            = convBT pages hw ab from rfl, hbt]
        rfl

/-! ### The first page of each batch -/

theorem chunk_headI_at (B P j : ℕ)
    (hj : j < (chunk B (List.range' 1 P)).length) :
    ∃ c, (chunk B (List.range' 1 P)).get? j = some c ∧
      c.headI = ((chunk B (List.range' 1 P)).take j).flatten.length + 1 := by
  set cs := chunk B (List.range' 1 P) with hcs
  refine ⟨cs.get ⟨j, hj⟩, List.get?_eq_get hj, ?_⟩
  set c := cs.get ⟨j, hj⟩ with hcdef
  have hcne : c ≠ [] := chunk_ne_nil B _ c (by rw [hcdef]; exact List.get_mem cs j hj)
  obtain ⟨hd, tl, hctl⟩ := List.exists_cons_of_ne_nil hcne
  have hdrop : cs.drop j = c :: cs.drop (j + 1) := List.drop_eq_get_cons hj
  set m := (cs.take j).flatten.length with hm
  have hsplit : List.range' 1 P = (cs.take j).flatten ++ (cs.drop j).flatten := by
    rw [← List.flatten_append, List.take_append_drop, hcs, chunk_flatten]
  have hq : (List.range' 1 P).get? m = some hd := by
    rw [hsplit, List.get?_append_right (by omega)]
    have hz : m - (cs.take j).flatten.length = 0 := by omega
    rw [hz, hdrop, List.flatten_cons, hctl]
    rfl
  have hmP : m < P := by
    by_contra hge
    have : (List.range' 1 P).get? m = none := by
      rw [List.get?_eq_none]
      simpa using Nat.le_of_not_lt hge
    rw [this] at hq
    exact Option.noConfusion hq
  have hval : (List.range' 1 P).get? m = some (1 + m) := by
    rw [List.get?_eq_getElem?]
    simpa using List.getElem?_range' 1 1 hmP
  rw [hval] at hq
  have : 1 + m = hd := Option.some.inj hq
  rw [hctl]
  show hd = m + 1
  omega

/-! ### The shape of the progress report sequence -/

/-- The progress values reported at the batch steps, in batch order. -/
def batchVals (P B : ℕ) : List ℚ :=
  (chunk B (List.range' 1 P)).map (fun b => batchProgress b P)

/-- The full progress-value sequence of a conversion that runs to the end:
the three set-up reports, one report per batch, and the two finalisation
reports. Every run's report sequence is a sublist of this one. -/
def progressFull (P B : ℕ) : List ℚ :=
  [2, 5, 8] ++ batchVals P B ++ [97, 100]

theorem chunk_headI_bounds (B P : ℕ) (c : List ℕ)
    (hc : c ∈ chunk B (List.range' 1 P)) : 1 ≤ c.headI ∧ c.headI ≤ P := by
  have h := List.mem_range'_1.mp (chunk_headI_mem B _ c hc)
  omega

theorem batchVals_bounds (P B : ℕ) (v : ℚ) (hv : v ∈ batchVals P B) :
    10 < v ∧ v ≤ 95 := by
  rcases List.mem_map.mp hv with ⟨c, hc, rfl⟩
  obtain ⟨h1, h2⟩ := chunk_headI_bounds B P c hc
  have hP : 1 ≤ P := le_trans h1 h2
  have hPq : (0 : ℚ) < (P : ℚ) := by exact_mod_cast hP
  have hhq : (0 : ℚ) < (c.headI : ℚ) := by exact_mod_cast h1
  have hle : (c.headI : ℚ) ≤ (P : ℚ) := by exact_mod_cast h2
  unfold batchProgress
  constructor
  · have hpos : 0 < (c.headI : ℚ) / (P : ℚ) := div_pos hhq hPq
    nlinarith
  · have hone : (c.headI : ℚ) / (P : ℚ) ≤ 1 := (div_le_one hPq).mpr hle
    nlinarith

theorem batchVals_pairwise (P B : ℕ) :
    List.Pairwise (· ≤ ·) (batchVals P B) := by
  unfold batchVals
  rw [List.pairwise_map]
  have hheads : List.Pairwise (· < ·) ((chunk B (List.range' 1 P)).map List.headI) :=
    (List.pairwise_lt_range' 1 P).sublist (chunk_heads_sublist B (List.range' 1 P))
  rw [List.pairwise_map] at hheads
  refine hheads.imp ?_
  intro a b hab
  unfold batchProgress
  rcases Nat.eq_zero_or_pos P with hP | hP
  · subst hP
    simp
  · have hPq : (0 : ℚ) < (P : ℚ) := by exact_mod_cast hP
    have h1 : (a.headI : ℚ) / (P : ℚ) ≤ (b.headI : ℚ) / (P : ℚ) :=
      div_le_div_of_nonneg_right (by exact_mod_cast Nat.le_of_lt hab) (le_of_lt hPq)
    nlinarith

theorem progressFull_pairwise (P B : ℕ) :
    List.Pairwise (· ≤ ·) (progressFull P B) := by
  unfold progressFull
  rw [List.pairwise_append]
  refine ⟨?_, ?_, ?_⟩
  · rw [List.pairwise_append]
    refine ⟨?_, batchVals_pairwise P B, ?_⟩
    · norm_num
    · intro x hx v hv
      have hb := batchVals_bounds P B v hv
      have hx3 : x = 2 ∨ x = 5 ∨ x = 8 := by simpa using hx
      rcases hx3 with rfl | rfl | rfl <;> linarith [hb.1]
  · norm_num
  · intro x hx y hy
    have hy2 : y = 97 ∨ y = 100 := by simpa using hy
    rcases List.mem_append.mp hx with h1 | h1
    · have hx3 : x = 2 ∨ x = 5 ∨ x = 8 := by simpa using h1
      rcases hy2 with rfl | rfl <;> rcases hx3 with rfl | rfl | rfl <;> norm_num
    · have hb := batchVals_bounds P B x h1
      rcases hy2 with rfl | rfl <;> linarith [hb.2]

theorem progressFull_bounds (P B : ℕ) (q : ℚ) (hq : q ∈ progressFull P B) :
    0 ≤ q ∧ q ≤ 100 := by
  unfold progressFull at hq
  rcases List.mem_append.mp hq with h1 | h1
  · rcases List.mem_append.mp h1 with h2 | h2
    · have : q = 2 ∨ q = 5 ∨ q = 8 := by simpa using h2
      rcases this with rfl | rfl | rfl <;> norm_num
    · have hb := batchVals_bounds P B q h2
      constructor <;> linarith [hb.1, hb.2]
  · have : q = 97 ∨ q = 100 := by simpa using h1
    rcases this with rfl | rfl <;> norm_num

theorem convert_progress_sublist (pages : List SrcPage) (hw : ℕ) (pok wok : Bool)
    (ab : ℕ → Bool) :
    List.Sublist ((convertToNativeTextPDF pages hw pok wok ab).progress.map Prod.fst)
      (progressFull pages.length (numWorkersOf hw)) := by
  cases pok with
  | false => exact List.nil_sublist _
  | true =>
    cases wok with
    | false =>
      show List.Sublist [2, 5] _
      unfold progressFull
      refine List.Sublist.trans ?_ (List.sublist_append_left _ [97, 100])
      refine List.Sublist.trans ?_ (List.sublist_append_left _ (batchVals pages.length (numWorkersOf hw)))
      exact ((List.nil_sublist [8]).cons₂ 5).cons₂ 2
    | true =>
      cases hbt : (convBT pages hw ab).outcome with
      | error e =>
        rw [convert_error_rec pages hw ab e hbt]
        obtain ⟨k, hk⟩ := runBatches_progress_take pages pages.length ab
          (chunk (numWorkersOf hw) (List.range' 1 pages.length)) 0
        have hkbt : (convBT pages hw ab).progress
            = ((chunk (numWorkersOf hw) (List.range' 1 pages.length)).take k).map
                (fun b => (batchProgress b pages.length, batchMsg b pages.length)) := hk
        show List.Sublist ((([(2, "Carregando arquivo PDF..."),
            (5, "Inicializando motor OCR paralelo..."),
            (8, "Preparando novo documento...")] ++ (convBT pages hw ab).progress)).map Prod.fst) _
        rw [List.map_append, hkbt, List.map_map]
        have hfst : ((chunk (numWorkersOf hw) (List.range' 1 pages.length)).take k).map
            (Prod.fst ∘ fun b => (batchProgress b pages.length, batchMsg b pages.length))
            = (batchVals pages.length (numWorkersOf hw)).take k := by
          unfold batchVals
          rw [List.map_take]
          rfl
        rw [hfst]
        unfold progressFull
        refine List.Sublist.trans ?_ (List.sublist_append_left _ [97, 100])
        show List.Sublist ([2, 5, 8] ++ (batchVals pages.length (numWorkersOf hw)).take k) _
        exact List.Sublist.append_left (List.take_sublist k _) [2, 5, 8]
      | ok outs =>
        rw [convert_ok_rec pages hw ab outs hbt]
        have hfull : (convBT pages hw ab).progress
            = (chunk (numWorkersOf hw) (List.range' 1 pages.length)).map
                (fun b => (batchProgress b pages.length, batchMsg b pages.length)) :=
          runBatches_ok_progress pages pages.length ab _ 0 outs hbt
        show List.Sublist ((([(2, "Carregando arquivo PDF..."),
            (5, "Inicializando motor OCR paralelo..."),
            (8, "Preparando novo documento...")] ++ (convBT pages hw ab).progress
            ++ [(97, "Finalizando documento PDF..."),
                (100, "Conversão concluída com sucesso!")])).map Prod.fst) _
        rw [List.map_append, List.map_append, hfull, List.map_map]
        have hfst : (chunk (numWorkersOf hw) (List.range' 1 pages.length)).map
            (Prod.fst ∘ fun b => (batchProgress b pages.length, batchMsg b pages.length))
            = batchVals pages.length (numWorkersOf hw) := rfl
        rw [hfst]
        exact List.Sublist.refl _

/-! ### The invisible-text overlay walk -/

theorem overlayGoSpec_nil_of_lt (ls : List String) (y : ℚ) (hy : y < 10) :
    overlayGoSpec ls y = [] := by
  induction ls generalizing y with
  | nil => rfl
  | cons l ls ih =>
    unfold overlayGoSpec
    rw [if_pos hy, List.nil_append]
    have hstep : (0 : ℚ) < 8 * (13 / 10) := by norm_num
    exact ih _ (by linarith)

theorem overlayGo_eq_spec (ls : List String) (y : ℚ) :
    overlayGo ls y = overlayGoSpec ls y := by
  induction ls generalizing y with
  | nil => rfl
  | cons l ls ih =>
    by_cases hy : y < 10
    · unfold overlayGo overlayGoSpec
      rw [if_pos hy, if_pos hy, List.nil_append]
      have hstep : (0 : ℚ) < 8 * (13 / 10) := by norm_num
      rw [overlayGoSpec_nil_of_lt ls _ (by linarith)]
    · unfold overlayGo overlayGoSpec
      rw [if_neg hy, if_neg hy, ih]

theorem overlayGo_bounds (ls : List String) (y : ℚ) (p : String × ℚ)
    (hp : p ∈ overlayGo ls y) : 10 ≤ p.2 ∧ p.2 ≤ y := by
  induction ls generalizing y with
  | nil => simp [overlayGo] at hp
  | cons l ls ih =>
    unfold overlayGo at hp
    by_cases hy : y < 10
    · rw [if_pos hy] at hp; simp at hp
    · rw [if_neg hy] at hp
      have hstep : (0 : ℚ) < 8 * (13 / 10) := by norm_num
      rcases List.mem_append.mp hp with h1 | h1
      · by_cases hc : cleanLine003 l ≠ ""
        · rw [if_pos hc] at h1
          have hpv : p = (cleanLine003 l, y) := by simpa using h1
          subst hpv
          exact ⟨le_of_not_lt hy, le_rfl⟩
        · rw [if_neg hc] at h1; simp at h1
      · have hb := ih _ h1
        exact ⟨hb.1, by linarith [hb.2]⟩

theorem overlayGo_snd_pairwise (ls : List String) (y : ℚ) :
    List.Pairwise (· > ·) ((overlayGo ls y).map Prod.snd) := by
  induction ls generalizing y with
  | nil => simp [overlayGo]
  | cons l ls ih =>
    unfold overlayGo
    by_cases hy : y < 10
    · rw [if_pos hy]; simp
    · rw [if_neg hy]
      have hstep : (0 : ℚ) < 8 * (13 / 10) := by norm_num
      by_cases hc : cleanLine003 l ≠ ""
      · rw [if_pos hc, List.singleton_append, List.map_cons, List.pairwise_cons]
        constructor
        · intro b hb
          rcases List.mem_map.mp hb with ⟨q, hq, rfl⟩
          have hbd := overlayGo_bounds ls _ q hq
          show y > q.2
          linarith [hbd.2]
        · exact ih _
      · rw [if_neg hc, List.nil_append]; exact ih _

/-! ### Concrete documents used as witnesses and counterexamples -/

/-- A page whose extracted text passes the native-text threshold (no OCR
result is even available for it: recognition would fail if it were ever
invoked). -/
def pageNative : SrcPage :=
  { textItems := ["This page has plenty of native text content 123"],
    renderOk := true, ocr := none, width := 100, height := 200 }

/-- An image-only page whose recognition job returns text. -/
def pageImage : SrcPage :=
  { textItems := [], renderOk := true, ocr := some "texto OCR da página",
    width := 100, height := 200 }

/-- An image-only page whose recognition job rejects. -/
def pageOcrFail : SrcPage :=
  { textItems := [], renderOk := true, ocr := none, width := 100, height := 200 }

/-! ### The claims -/

theorem convert_ok_pages (pages : List SrcPage) (hw : ℕ) (pdfjsOk workersOk : Bool)
    (ab : ℕ → Bool) (outs : List PageOut)
    (h : (convertToNativeTextPDF pages hw pdfjsOk workersOk ab).outcome = .ok outs) :
    pages.map pageResult = outs.map Except.ok := by
  obtain ⟨-, -, hbt⟩ := convert_ok_shape pages hw pdfjsOk workersOk ab outs h
  have hmain := runBatches_ok pages pages.length ab _ 0 outs hbt
  rw [chunk_flatten] at hmain
  have hmap : (List.range' 1 pages.length).map (fun n => pageResult (getPage pages n))
      = pages.map pageResult := by
    have hcomp := congrArg (List.map pageResult) (map_getPage_range' pages)
    rw [List.map_map] at hcomp
    exact hcomp
  rw [hmap] at hmain
  exact hmain

/-- C1: a successful run of `convertToNativeTextPDF` on a `P`-page document
yields exactly `P` output pages, and the page at output position `k` is the
one built by the per-page pipeline from source page `k` — the output order is
the source order. Within a batch the per-page work runs under `Promise.all`,
whose result array is indexed by input position whatever the completion
order, and the commit loop walks that array in page order; the embedding
reflects this, and the theorem shows the committed sequence equals the
per-page results of the source pages in source order. -/
theorem claim_c1_page_count_and_order (pages : List SrcPage) (hw : ℕ)
    (pdfjsOk workersOk : Bool) (ab : ℕ → Bool) (outs : List PageOut)
    (h : (convertToNativeTextPDF pages hw pdfjsOk workersOk ab).outcome = .ok outs) :
    outs.length = pages.length ∧ pages.map pageResult = outs.map Except.ok := by
  have hmain := convert_ok_pages pages hw pdfjsOk workersOk ab outs h
  refine ⟨?_, hmain⟩
  have hlen := congrArg List.length hmain
  simp only [List.length_map] at hlen
  exact hlen.symm

theorem claim_c1_witness :
    (convertToNativeTextPDF [pageNative, pageImage] 1 true true (fun _ => false)).outcome
      = .ok [{ w := 150, h := 300,
               overlay := some "This page has plenty of native text content 123" },
             { w := 150, h := 300, overlay := some "texto OCR da página" }]
    ∧ ([{ w := 150, h := 300,
          overlay := some "This page has plenty of native text content 123" },
        { w := 150, h := 300, overlay := some "texto OCR da página" }] : List PageOut).length
        = ([pageNative, pageImage] : List SrcPage).length
    ∧ ([pageNative, pageImage] : List SrcPage).map pageResult
        = ([{ w := 150, h := 300,
              overlay := some "This page has plenty of native text content 123" },
            { w := 150, h := 300, overlay := some "texto OCR da página" }] : List PageOut).map
            Except.ok :=
  ⟨by with_unfolding_all decide,
    (claim_c1_page_count_and_order [pageNative, pageImage] 1 true true (fun _ => false) _
      (by with_unfolding_all decide)).1,
    (claim_c1_page_count_and_order [pageNative, pageImage] 1 true true (fun _ => false) _
      (by with_unfolding_all decide)).2⟩

/-- C2 (failing run): in the batched source, `scheduler.terminate()` sits
after the batch loop inside the `try` block and only the keep-alive stop is
in the `finally`; when the recognition of the second of four pages rejects,
the conversion fails and the scheduler is terminated zero times, not once.
On the success path it is terminated exactly once. This evaluates the model
at that failing input and at a succeeding one. -/
theorem claim_c2_terminate_not_called_on_failure :
    (convertToNativeTextPDF [pageNative, pageOcrFail, pageImage, pageNative] 3 true true
        (fun _ => false)).outcome = .error .recognitionFailure
    ∧ (convertToNativeTextPDF [pageNative, pageOcrFail, pageImage, pageNative] 3 true true
        (fun _ => false)).terminateCalls = 0
    ∧ (convertToNativeTextPDF [pageNative, pageOcrFail, pageImage, pageNative] 3 true true
        (fun _ => false)).keepAliveStopped = true
    ∧ (convertToNativeTextPDF [pageNative, pageImage] 3 true true
        (fun _ => false)).terminateCalls = 1 := by
  with_unfolding_all decide

/-- A page whose extracted text passes the native-text threshold but holds a
character outside the sanitiser's kept ranges (GREEK SMALL LETTER ALPHA). -/
def pageGreek : SrcPage :=
  { textItems := ["aaaaaaaaaaaaaaaaaaaaaα"], renderOk := true, ocr := none,
    width := 100, height := 200 }

/-- C3 fails as stated: this page's extracted text passes the threshold, yet
the text embedded into the output page is the sanitised text, which differs
from the extracted native text — the claimed byte-for-byte equality is false
at this input. -/
theorem claim_c3_counterexample :
    20 < nonWsUtf16Len (existingTextOf pageGreek)
    ∧ ((convertToNativeTextPDF [pageGreek] 1 true true (fun _ => false)).outcome).map
        (List.map PageOut.overlay) = .ok [some "aaaaaaaaaaaaaaaaaaaaa"]
    ∧ existingTextOf pageGreek = "aaaaaaaaaaaaaaaaaaaaaα"
    ∧ some (existingTextOf pageGreek) ≠ some "aaaaaaaaaaaaaaaaaaaaa" := by
  with_unfolding_all decide

/-- C3 (amended): for every page whose extracted text passes the native-text
threshold, the text embedded into the output page is the extracted native
text with characters outside printable ASCII, upper Latin-1 and newline
removed and surrounding whitespace trimmed (no overlay at all if nothing
survives); in particular it is byte-for-byte the native text exactly when
the native text is unchanged by that sanitisation. -/
theorem claim_c3_amended (pages : List SrcPage) (hw : ℕ) (pdfjsOk workersOk : Bool)
    (ab : ℕ → Bool) (outs : List PageOut) (k : ℕ)
    (h : (convertToNativeTextPDF pages hw pdfjsOk workersOk ab).outcome = .ok outs)
    (hk : k < pages.length)
    (hnat : 20 < nonWsUtf16Len (existingTextOf (pages.get ⟨k, hk⟩))) :
    ∃ o, outs.get? k = some o ∧
      o.overlay = (if cleanText002 (existingTextOf (pages.get ⟨k, hk⟩)) ≠ ""
        then some (cleanText002 (existingTextOf (pages.get ⟨k, hk⟩))) else none) := by
  have hmap := convert_ok_pages pages hw pdfjsOk workersOk ab outs h
  have h1 : (pages.map pageResult).get? k = (outs.map Except.ok).get? k := by rw [hmap]
  rw [List.get?_map, List.get?_map, List.get?_eq_get hk] at h1
  cases ho : outs.get? k with
  | none => rw [ho] at h1; simp at h1
  | some o =>
    rw [ho] at h1
    simp only [Option.map_some'] at h1
    have hpr : pageResult (pages.get ⟨k, hk⟩) = Except.ok o := Option.some.inj h1
    refine ⟨o, rfl, ?_⟩
    unfold pageResult resolveText at hpr
    by_cases hr : (pages.get ⟨k, hk⟩).renderOk
    · rw [if_neg (by rw [hr]; simp)] at hpr
      have hnt : hasNativeText (pages.get ⟨k, hk⟩) = true := by
        unfold hasNativeText
        exact decide_eq_true hnat
      rw [if_pos hnt] at hpr
      simp only [Except.map] at hpr
      have ho2 : commitPage (pages.get ⟨k, hk⟩) (existingTextOf (pages.get ⟨k, hk⟩)) = o :=
        Except.ok.inj hpr
      rw [← ho2]
      unfold commitPage
      have htr : jsTrim (existingTextOf (pages.get ⟨k, hk⟩)) ≠ "" :=
        jsTrim_ne_empty_of_nonWs _ (by omega)
      simp only [htr, if_true, ne_eq, not_false_iff]
    · have hr' : (pages.get ⟨k, hk⟩).renderOk = false := by
        revert hr
        cases (pages.get ⟨k, hk⟩).renderOk <;> simp
      rw [if_pos (by rw [hr']; rfl)] at hpr
      simp [Except.map] at hpr

theorem claim_c3_witness :
    (convertToNativeTextPDF [pageNative] 1 true true (fun _ => false)).outcome
        = .ok [{ w := 150, h := 300,
                 overlay := some "This page has plenty of native text content 123" }]
    ∧ 0 < ([pageNative] : List SrcPage).length
    ∧ 20 < nonWsUtf16Len
        (existingTextOf (([pageNative] : List SrcPage).get ⟨0, Nat.one_pos⟩))
    ∧ ∃ o, ([{ w := 150, h := 300,
               overlay := some "This page has plenty of native text content 123" }] :
          List PageOut).get? 0 = some o
        ∧ o.overlay =
          (if cleanText002 (existingTextOf (([pageNative] : List SrcPage).get ⟨0, Nat.one_pos⟩)) ≠ ""
           then some (cleanText002
             (existingTextOf (([pageNative] : List SrcPage).get ⟨0, Nat.one_pos⟩)))
           else none) :=
  ⟨by with_unfolding_all decide, Nat.one_pos, by with_unfolding_all decide,
    claim_c3_amended [pageNative] 1 true true (fun _ => false) _ 0
      (by with_unfolding_all decide) Nat.one_pos (by with_unfolding_all decide)⟩

/-- C4: a page whose extracted text has more than 20 non-whitespace
characters is treated as natively textual and no recognition job for it is
ever submitted to the worker pool — even if the page also carries images, and
whatever the rest of the document looks like. In the per-page pipeline the
native-text test is evaluated before any dispatch for that page, so native
text always takes precedence. -/
theorem claim_c4_native_pages_never_submitted (pages : List SrcPage) (hw : ℕ)
    (pdfjsOk workersOk : Bool) (ab : ℕ → Bool) (n : ℕ)
    (hnat : 20 < nonWsUtf16Len (existingTextOf (getPage pages n))) :
    n ∉ (convertToNativeTextPDF pages hw pdfjsOk workersOk ab).ocr := by
  intro hmem
  have hsub : ocrSubmitted (getPage pages n) = true := by
    rcases convert_ocr_cases pages hw pdfjsOk workersOk ab with hocr | hocr
    · rw [hocr] at hmem; simp at hmem
    · rw [hocr] at hmem
      exact runBatches_ocr_submitted pages pages.length ab _ 0 n hmem
  unfold ocrSubmitted at hsub
  have hnt : hasNativeText (getPage pages n) = true := by
    unfold hasNativeText
    exact decide_eq_true hnat
  rw [hnt] at hsub
  simp at hsub

theorem claim_c4_witness :
    20 < nonWsUtf16Len (existingTextOf (getPage [pageImage, pageNative] 2))
    ∧ 2 ∉ (convertToNativeTextPDF [pageImage, pageNative] 1 true true (fun _ => false)).ocr :=
  ⟨by with_unfolding_all decide,
    claim_c4_native_pages_never_submitted [pageImage, pageNative] 1 true true
      (fun _ => false) 2 (by with_unfolding_all decide)⟩

theorem convBT_cancel (pages : List SrcPage) (hw i : ℕ) (ab : ℕ → Bool)
    (hbefore : ∀ j, j < i → ab j = false) (hat : ab i = true)
    (hlt : i < (chunk (numWorkersOf hw) (List.range' 1 pages.length)).length)
    (hok : ∀ p ∈ pages, (pageResult p).isOk = true) :
    convBT pages hw ab =
      { progress := ((chunk (numWorkersOf hw) (List.range' 1 pages.length)).take i).map
          (fun b => (batchProgress b pages.length, batchMsg b pages.length))
        raster := ((chunk (numWorkersOf hw) (List.range' 1 pages.length)).take i).flatten
        ocr := (((chunk (numWorkersOf hw) (List.range' 1 pages.length)).take i).flatten).filter
          (fun n => ocrSubmitted (getPage pages n))
        outcome := .error .cancelled } := by
  have hok' : ∀ n ∈ ((chunk (numWorkersOf hw) (List.range' 1 pages.length)).take i).flatten,
      (pageResult (getPage pages n)).isOk = true := by
    intro n hn
    apply hok
    apply getPage_mem
    rcases List.mem_flatten.mp hn with ⟨c, hc, hnc⟩
    have h1 : n ∈ (chunk (numWorkersOf hw) (List.range' 1 pages.length)).flatten :=
      List.mem_flatten.mpr ⟨c, List.take_subset _ _ hc, hnc⟩
    rwa [chunk_flatten] at h1
  exact runBatches_cancel pages pages.length ab i _ 0
    (fun j hj => by simpa using hbefore j hj) (by simpa using hat) hlt hok'

/-- C5: if the abort signal is unset at every batch boundary before `i` and
set at boundary `i` (with `0 < i` less than the number of batches), and all
page jobs succeed, then the conversion aborts exactly at that boundary: it
resolves as cancelled, the pages rasterised are precisely those of batches
`0..i-1` (all of whose jobs ran to completion), the recognition submissions
are precisely the non-native pages of those batches, and no page of batch `i`
or any later batch is ever rasterised or submitted. The signal is consulted
only at batch boundaries — in the model, as in the source, it is polled once
per loop iteration before the batch's work starts, never mid-batch. -/
theorem claim_c5_cancellation_at_batch_boundary (pages : List SrcPage) (hw i : ℕ)
    (ab : ℕ → Bool)
    (hbefore : ∀ j, j < i → ab j = false) (hat : ab i = true) (h0 : 0 < i)
    (hlt : i < (chunk (numWorkersOf hw) (List.range' 1 pages.length)).length)
    (hok : ∀ p ∈ pages, (pageResult p).isOk = true) :
    (convertToNativeTextPDF pages hw true true ab).outcome = .error .cancelled
    ∧ (convertToNativeTextPDF pages hw true true ab).raster
        = ((chunk (numWorkersOf hw) (List.range' 1 pages.length)).take i).flatten
    ∧ (convertToNativeTextPDF pages hw true true ab).ocr
        = (((chunk (numWorkersOf hw) (List.range' 1 pages.length)).take i).flatten).filter
            (fun n => ocrSubmitted (getPage pages n))
    ∧ ∀ n ∈ ((chunk (numWorkersOf hw) (List.range' 1 pages.length)).drop i).flatten,
        n ∉ (convertToNativeTextPDF pages hw true true ab).raster
        ∧ n ∉ (convertToNativeTextPDF pages hw true true ab).ocr := by
  have hbtrec := convBT_cancel pages hw i ab hbefore hat hlt hok
  have herr : (convBT pages hw ab).outcome = .error .cancelled := by rw [hbtrec]
  have hrec := convert_error_rec pages hw ab .cancelled herr
  have hraster : (convertToNativeTextPDF pages hw true true ab).raster
      = ((chunk (numWorkersOf hw) (List.range' 1 pages.length)).take i).flatten := by
    rw [hrec]
    show (convBT pages hw ab).raster = _
    rw [hbtrec]
  have hocr : (convertToNativeTextPDF pages hw true true ab).ocr
      = (((chunk (numWorkersOf hw) (List.range' 1 pages.length)).take i).flatten).filter
          (fun n => ocrSubmitted (getPage pages n)) := by
    rw [hrec]
    show (convBT pages hw ab).ocr = _
    rw [hbtrec]
  refine ⟨by rw [hrec], hraster, hocr, ?_⟩
  intro n hn
  have hnodup : (((chunk (numWorkersOf hw) (List.range' 1 pages.length)).take i).flatten
      ++ ((chunk (numWorkersOf hw) (List.range' 1 pages.length)).drop i).flatten).Nodup := by
    rw [← List.flatten_append, List.take_append_drop, chunk_flatten]
    exact List.nodup_range' 1 pages.length
  have hdisj := (List.nodup_append.mp hnodup).2.2
  have hnotin : n ∉ ((chunk (numWorkersOf hw) (List.range' 1 pages.length)).take i).flatten := by
    intro hmem
    exact hdisj hmem hn
  constructor
  · rw [hraster]; exact hnotin
  · rw [hocr]
    intro hmem
    exact hnotin (List.mem_of_mem_filter hmem)

/-- A four-page document: two native-text pages interleaved with two
image-only pages whose recognition succeeds. -/
def c5Pages : List SrcPage := [pageNative, pageImage, pageNative, pageImage]

theorem claim_c5_witness :
    (∀ j, j < 2 → (fun j => decide (2 ≤ j)) j = false)
    ∧ (fun j => decide (2 ≤ j)) 2 = true
    ∧ 0 < 2
    ∧ 2 < (chunk (numWorkersOf 1) (List.range' 1 c5Pages.length)).length
    ∧ (∀ p ∈ c5Pages, (pageResult p).isOk = true)
    ∧ ((convertToNativeTextPDF c5Pages 1 true true (fun j => decide (2 ≤ j))).outcome
          = .error .cancelled
      ∧ (convertToNativeTextPDF c5Pages 1 true true (fun j => decide (2 ≤ j))).raster
          = ((chunk (numWorkersOf 1) (List.range' 1 c5Pages.length)).take 2).flatten
      ∧ (convertToNativeTextPDF c5Pages 1 true true (fun j => decide (2 ≤ j))).ocr
          = (((chunk (numWorkersOf 1) (List.range' 1 c5Pages.length)).take 2).flatten).filter
              (fun n => ocrSubmitted (getPage c5Pages n))
      ∧ ∀ n ∈ ((chunk (numWorkersOf 1) (List.range' 1 c5Pages.length)).drop 2).flatten,
          n ∉ (convertToNativeTextPDF c5Pages 1 true true (fun j => decide (2 ≤ j))).raster
          ∧ n ∉ (convertToNativeTextPDF c5Pages 1 true true (fun j => decide (2 ≤ j))).ocr) :=
  ⟨by decide, by decide, by decide, by with_unfolding_all decide,
    by with_unfolding_all decide,
    claim_c5_cancellation_at_batch_boundary c5Pages 1 2 (fun j => decide (2 ≤ j))
      (by decide) (by decide) (by decide) (by with_unfolding_all decide)
      (by with_unfolding_all decide)⟩

/-- C6: when a conversion is aborted by a cancellation request observed at a
batch boundary, it resolves with the distinguished cancellation error — a
value a caller can tell apart from every other failure of the pipeline (the
render, recognition, engine-start and module-availability errors), also by
its message string — and no output document accompanies the outcome. -/
theorem claim_c6_cancellation_distinguished (pages : List SrcPage) (hw i : ℕ)
    (ab : ℕ → Bool)
    (hbefore : ∀ j, j < i → ab j = false) (hat : ab i = true)
    (hlt : i < (chunk (numWorkersOf hw) (List.range' 1 pages.length)).length)
    (hok : ∀ p ∈ pages, (pageResult p).isOk = true) :
    (convertToNativeTextPDF pages hw true true ab).outcome = .error .cancelled
    ∧ (∀ outs : List PageOut,
        (convertToNativeTextPDF pages hw true true ab).outcome ≠ .ok outs)
    ∧ ConvError.cancelled ≠ ConvError.renderFailure
    ∧ ConvError.cancelled ≠ ConvError.recognitionFailure
    ∧ ConvError.cancelled ≠ ConvError.engineUnavailable
    ∧ ConvError.cancelled ≠ ConvError.pdfjsUnavailable
    ∧ ConvError.message .cancelled = "Conversão cancelada"
    ∧ (∀ e : ConvError, e ≠ .cancelled →
        ConvError.message e ≠ ConvError.message .cancelled) := by
  have hbtrec := convBT_cancel pages hw i ab hbefore hat hlt hok
  have herr : (convBT pages hw ab).outcome = .error .cancelled := by rw [hbtrec]
  have hrec := convert_error_rec pages hw ab .cancelled herr
  have hout : (convertToNativeTextPDF pages hw true true ab).outcome = .error .cancelled := by
    rw [hrec]
  refine ⟨hout, ?_, by decide, by decide, by decide, by decide, rfl, ?_⟩
  · intro outs hcontra
    rw [hout] at hcontra
    exact Except.noConfusion hcontra
  · intro e he
    cases e <;> simp_all [ConvError.message]

/-- A three-page document used for the cancellation-outcome witness. -/
def c6Pages : List SrcPage := [pageNative, pageImage, pageNative]

theorem claim_c6_witness :
    (∀ j, j < 1 → (fun j => decide (1 ≤ j)) j = false)
    ∧ (fun j => decide (1 ≤ j)) 1 = true
    ∧ 1 < (chunk (numWorkersOf 1) (List.range' 1 c6Pages.length)).length
    ∧ (∀ p ∈ c6Pages, (pageResult p).isOk = true)
    ∧ ((convertToNativeTextPDF c6Pages 1 true true (fun j => decide (1 ≤ j))).outcome
          = .error .cancelled
      ∧ (∀ outs : List PageOut,
          (convertToNativeTextPDF c6Pages 1 true true (fun j => decide (1 ≤ j))).outcome
            ≠ .ok outs)
      ∧ ConvError.cancelled ≠ ConvError.renderFailure
      ∧ ConvError.cancelled ≠ ConvError.recognitionFailure
      ∧ ConvError.cancelled ≠ ConvError.engineUnavailable
      ∧ ConvError.cancelled ≠ ConvError.pdfjsUnavailable
      ∧ ConvError.message .cancelled = "Conversão cancelada"
      ∧ (∀ e : ConvError, e ≠ .cancelled →
          ConvError.message e ≠ ConvError.message .cancelled)) :=
  ⟨by decide, by decide, by with_unfolding_all decide, by with_unfolding_all decide,
    claim_c6_cancellation_distinguished c6Pages 1 1 (fun j => decide (1 ≤ j))
      (by decide) (by decide) (by with_unfolding_all decide)
      (by with_unfolding_all decide)⟩

/-- C7 fails as stated: on a two-page document converted with one worker
(batch size one), the report at the first batch's processing step carries the
value `10 + (1/2)*85 = 52.5`, while zero pages have been committed when that
report is made, so the claimed formula `10 + (completed/total)*85` would give
`10`. The source computes `10 + (i / numPages) * 85` with `i` the 1-based
first page number of the batch, not the completed count. -/
theorem claim_c7_counterexample :
    (((convertToNativeTextPDF [pageNative, pageImage] 1 true true
        (fun _ => false)).progress.map Prod.fst).get? 3 = some (105 / 2))
    ∧ (10 + ((0 : ℚ) / 2) * 85 = 10)
    ∧ ((105 : ℚ) / 2 ≠ 10) := by
  with_unfolding_all decide

/-- C7 (amended): at the processing step of batch `j` of a successful run,
the reported progress value is `10 + ((completed + 1) / total) * 85`, where
`completed` is the number of pages committed before that batch (the pages of
batches `0..j-1`) — the numerator is the 1-based page number of the batch's
first page, one more than the completed count the spec's formula uses. -/
theorem claim_c7_amended (pages : List SrcPage) (hw : ℕ) (ab : ℕ → Bool)
    (outs : List PageOut) (j : ℕ)
    (h : (convertToNativeTextPDF pages hw true true ab).outcome = .ok outs)
    (hj : j < (chunk (numWorkersOf hw) (List.range' 1 pages.length)).length) :
    ((convertToNativeTextPDF pages hw true true ab).progress.map Prod.fst).get? (3 + j)
      = some (10 + ((((chunk (numWorkersOf hw) (List.range' 1 pages.length)).take j).flatten.length
          + 1 : ℕ) : ℚ) / (pages.length : ℚ) * 85) := by
  have hbt : (convBT pages hw ab).outcome = .ok outs :=
    (convert_ok_shape pages hw true true ab outs h).2.2
  rw [convert_ok_rec pages hw ab outs hbt]
  have hfull : (convBT pages hw ab).progress
      = (chunk (numWorkersOf hw) (List.range' 1 pages.length)).map
          (fun b => (batchProgress b pages.length, batchMsg b pages.length)) :=
    runBatches_ok_progress pages pages.length ab _ 0 outs hbt
  show ((([(2, "Carregando arquivo PDF..."),
      (5, "Inicializando motor OCR paralelo..."),
      (8, "Preparando novo documento...")] ++ (convBT pages hw ab).progress
      ++ [(97, "Finalizando documento PDF..."),
          (100, "Conversão concluída com sucesso!")]).map Prod.fst)).get? (3 + j) = _
  rw [hfull, List.map_append, List.map_append]
  rw [List.get?_append (by
    simp only [List.length_append, List.length_map]
    have : (3 : ℕ) = ([(2 : ℚ), 5, 8]).length := rfl
    simp
    omega)]
  rw [List.get?_append_right (by simp)]
  have h3 : 3 + j - ([(2, "Carregando arquivo PDF..."),
      (5, "Inicializando motor OCR paralelo..."),
      (8, "Preparando novo documento...")].map
        (Prod.fst (α := ℚ) (β := String))).length = j := by
    simp
  rw [h3, List.map_map, List.get?_map]
  obtain ⟨c, hc, hhead⟩ := chunk_headI_at (numWorkersOf hw) pages.length j hj
  rw [hc]
  simp only [Option.map_some', Option.some.injEq, Function.comp]
  show batchProgress c pages.length = _
  unfold batchProgress
  rw [hhead]

theorem claim_c7_witness :
    (convertToNativeTextPDF [pageNative, pageImage] 1 true true (fun _ => false)).outcome
        = .ok [{ w := 150, h := 300,
                 overlay := some "This page has plenty of native text content 123" },
               { w := 150, h := 300, overlay := some "texto OCR da página" }]
    ∧ 1 < (chunk (numWorkersOf 1)
        (List.range' 1 ([pageNative, pageImage] : List SrcPage).length)).length
    ∧ ((convertToNativeTextPDF [pageNative, pageImage] 1 true true
          (fun _ => false)).progress.map Prod.fst).get? (3 + 1)
        = some (10 + ((((chunk (numWorkersOf 1)
            (List.range' 1 ([pageNative, pageImage] : List SrcPage).length)).take 1).flatten.length
            + 1 : ℕ) : ℚ) / (([pageNative, pageImage] : List SrcPage).length : ℚ) * 85) :=
  ⟨by with_unfolding_all decide, by with_unfolding_all decide,
    claim_c7_amended [pageNative, pageImage] 1 (fun _ => false)
      [{ w := 150, h := 300,
         overlay := some "This page has plenty of native text content 123" },
       { w := 150, h := 300, overlay := some "texto OCR da página" }] 1
      (by with_unfolding_all decide) (by with_unfolding_all decide)⟩

/-- C8: over any run of the conversion — any document, any worker count, any
abort schedule, success or failure — the sequence of percent values handed to
the progress callback is monotonically non-decreasing, and every value lies
in `[0, 100]`. Every run's value sequence is a sublist of the full monotone
sequence `2, 5, 8, batch reports, 97, 100`. -/
theorem claim_c8_progress_monotone_bounded (pages : List SrcPage) (hw : ℕ)
    (pdfjsOk workersOk : Bool) (ab : ℕ → Bool) :
    List.Pairwise (· ≤ ·)
      ((convertToNativeTextPDF pages hw pdfjsOk workersOk ab).progress.map Prod.fst)
    ∧ ∀ q ∈ (convertToNativeTextPDF pages hw pdfjsOk workersOk ab).progress.map Prod.fst,
        0 ≤ q ∧ q ≤ 100 := by
  have hsub := convert_progress_sublist pages hw pdfjsOk workersOk ab
  exact ⟨(progressFull_pairwise pages.length (numWorkersOf hw)).sublist hsub,
    fun q hq => progressFull_bounds pages.length (numWorkersOf hw) q (hsub.subset hq)⟩

/-- The batched variant's overlay draw (the commit step's text block): when
the resolved text is non-blank and something survives sanitising, a single
`drawText` call places the whole sanitised text — newlines and all — at the
fixed position `(10, viewport.height - 20)`. There is no per-line walk and no
below-margin truncation in this variant; the value records the drawn string
and its vertical position. -/
def drawOverlay002 (vh : ℚ) (text : String) : Option (String × ℚ) :=
  if jsTrim text ≠ "" then
    (if cleanText002 text ≠ "" then some (cleanText002 text, vh - 20) else none)
  else none

/-- A one-page document whose recognition result has three lines, on a page
small enough that a top-down walk from `height - 15` in steps of `8 * 1.3`
puts every line after the first below the bottom margin `10`. -/
def pageThreeLines : SrcPage :=
  { textItems := [], renderOk := true,
    ocr := some "linha um\nlinha dois\nlinha tres", width := 20, height := 20 }

/-- C9 fails as stated for the batched variant: converting `pageThreeLines`
embeds all three lines of the resolved text into the output page's overlay in
one draw, although at this page's viewport height (30) the claimed
line-by-line layout would drop every line after the first — the walk keeps
only `("linha um", 15)`, the second line's position `15 - 8 * 1.3` already
falling below the bottom margin. Lines below the margin are thus not dropped
from the batched variant's overlay. -/
theorem claim_c9_counterexample :
    (convertToNativeTextPDF [pageThreeLines] 1 true true (fun _ => false)).outcome
      = .ok [{ w := 30, h := 30, overlay := some "linha um\nlinha dois\nlinha tres" }]
    ∧ overlayLines "linha um\nlinha dois\nlinha tres" 30 = [("linha um", 15)]
    ∧ (15 : ℚ) - 8 * (13 / 10) < 10
    ∧ some "linha um\nlinha dois\nlinha tres" ≠ some "linha um" := by
  with_unfolding_all decide

/-- C9 (amended): the line-by-line layout with silent below-margin truncation
is the sequential variant's behaviour: its walk lays the non-blank lines out
from `pageH - 15` downward in fixed steps, draws a line only while its
position stays at or above the bottom margin `10`, drops every line below it
(the early stop draws exactly the same lines as dropping each below-margin
line individually — no overflow page, no error, the walk being total), and
the drawn positions strictly decrease. The batched variant instead draws the
whole sanitised resolved text in a single call at the fixed position
`viewport.height - 20`: when an overlay is drawn at all it is the entire
sanitised text at that height, whatever the page height and however many
lines there are — no line is truncated; the committed page's overlay is
exactly that draw's text. -/
theorem claim_c9_amended (finalText : String) (pageH vh : ℚ) (text : String)
    (p : SrcPage) :
    (overlayLines finalText pageH = overlayLinesSpec finalText pageH
      ∧ (∀ q ∈ overlayLines finalText pageH, 10 ≤ q.2 ∧ q.2 ≤ pageH - 15)
      ∧ List.Pairwise (· > ·) ((overlayLines finalText pageH).map Prod.snd))
    ∧ (drawOverlay002 vh text = none
        ∨ drawOverlay002 vh text = some (cleanText002 text, vh - 20))
    ∧ (commitPage p text).overlay
        = (drawOverlay002 (3 / 2 * p.height) text).map Prod.fst := by
  refine ⟨⟨?_, ?_, ?_⟩, ?_, ?_⟩
  · unfold overlayLines overlayLinesSpec
    by_cases h : jsTrim finalText ≠ ""
    · rw [if_pos h, if_pos h, overlayGo_eq_spec]
    · rw [if_neg h, if_neg h]
  · intro q hq
    unfold overlayLines at hq
    by_cases h : jsTrim finalText ≠ ""
    · rw [if_pos h] at hq
      exact overlayGo_bounds _ _ q hq
    · rw [if_neg h] at hq
      simp at hq
  · unfold overlayLines
    by_cases h : jsTrim finalText ≠ ""
    · rw [if_pos h]
      exact overlayGo_snd_pairwise _ _
    · rw [if_neg h]
      simp
  · unfold drawOverlay002
    by_cases h1 : jsTrim text ≠ ""
    · rw [if_pos h1]
      by_cases h2 : cleanText002 text ≠ ""
      · rw [if_pos h2]
        exact Or.inr rfl
      · rw [if_neg h2]
        exact Or.inl rfl
    · rw [if_neg h1]
      exact Or.inl rfl
  · unfold commitPage drawOverlay002
    by_cases h1 : jsTrim text ≠ ""
    · rw [if_pos h1, if_pos h1]
      by_cases h2 : cleanText002 text ≠ ""
      · rw [if_pos h2, if_pos h2]
        rfl
      · rw [if_neg h2, if_neg h2]
        rfl
    · rw [if_neg h1, if_neg h1]
      rfl

/-- C10: converting a zero-page document succeeds: the batch loop runs no
iteration, nothing is rasterised and no recognition job is submitted, the
worker pool is still created and then terminated exactly once, the keep-alive
guard is stopped, progress runs `2, 5, 8, 97, 100` (reaching 100), and the
finalized output document has zero pages. -/
theorem claim_c10_empty_document (hw : ℕ) (ab : ℕ → Bool) :
    convertToNativeTextPDF [] hw true true ab =
      { progress := [(2, "Carregando arquivo PDF..."),
          (5, "Inicializando motor OCR paralelo..."),
          (8, "Preparando novo documento..."),
          (97, "Finalizando documento PDF..."),
          (100, "Conversão concluída com sucesso!")]
        raster := [], ocr := [], terminateCalls := 1, keepAliveStopped := true
        outcome := .ok [] } := rfl
